import Mathlib

/-!
Verification of the bookmark-outline parser in `AddPDFBookmark.py`
(`class BookmarkParser`).  Lines are modelled as `List Char`; Python string
indices are modelled as `Nat` (with the two index-search helpers returning
`Int`, since Python returns `-1` for "not found"); the per-line errors raised
via `_raise_message` and the bare `KeyError` raised by the linkage pass are
modelled by the error type `PErr`.
-/

namespace AddPDFBookmark

/-- Errors the parser can raise: `RuntimeError('line {n}: {msg}')` produced by
`_raise_message` (carrying the 1-based line number), and the bare `KeyError`
raised by `parent_id_dict[layer - 1]` in `__add_id_parent_id`. -/
inductive PErr where
  | runtimeError (lineNo : Nat) (msg : String)
  | keyError (key : Nat)
deriving DecidableEq, Repr

/-- Message of `__check_str_index` / `_raise_message('格式错误')`. -/
def msgFormatError : String := "format error"

/-- Message of `_raise_message('page no 不是数字')`. -/
def msgPageNoNotNumeric : String := "page no not numeric"

/-- Message of `_raise_message('page no 错误，page no: {}')`. -/
def msgInvalidPageNo (v : Nat) : String := "invalid page no: " ++ toString v

/-- Message of `_raise_message('layer 格式错误，空格长度：{}')`. -/
def msgLayerError (n : Nat) : String := "layer length not multiple of 4: " ++ toString n

/-- `BookmarkParser.__remove_end_line_char`: `None` for `None`/empty input,
otherwise the string with a single trailing newline removed. -/
def removeEndLineChar (l : List Char) : Option (List Char) :=
  if l = [] then none
  else if l.getLast? = some '\n' then some (l.take (l.length - 1))
  else some l

/-- The per-character digit test of the source: a character `c` fails the check
`c < '0' or c > '9'`. -/
def isDigitChar (c : Char) : Bool := decide ('0' ≤ c ∧ c ≤ '9')

/-- Python `int(...)` on an already-validated digit string. -/
def digitsToNat (l : List Char) : Nat :=
  l.foldl (fun a c => a * 10 + (c.toNat - '0'.toNat)) 0

/-- `BookmarkParser.__parse_page_no_base`: empty header line gives base 0, an
all-digit header gives its value, anything else raises the not-numeric error. -/
def parsePageNoBase (lineNo : Nat) (l : List Char) : Except PErr Nat :=
  if l.length = 0 then .ok 0
  else if l.all isDigitChar then .ok (digitsToNat l)
  else .error (.runtimeError lineNo msgPageNoNotNumeric)

/-- Fuel-based loop of `__space_start_index` (structural recursion so that the
kernel can evaluate it; the fuel is initialized to `l.length - start`, so the
fuel-0 branch coincides with the loop's `start ≥ len` exit). -/
def spaceStartIndexGo (l : List Char) : Nat → Nat → Int
  | 0, _ => -1
  | fuel + 1, start =>
    if h : start < l.length then
      if l.get ⟨start, h⟩ = ' ' then (start : Int)
      else spaceStartIndexGo l fuel (start + 1)
    else -1

/-- `BookmarkParser.__space_start_index`: first index `≥ start` holding a
space, or `-1` when there is none. -/
def spaceStartIndex (l : List Char) (start : Nat) : Int :=
  spaceStartIndexGo l (l.length - start) start

/-- Fuel-based loop of `__space_end_index` (fuel as in `spaceStartIndexGo`;
the fuel-0 branch coincides with the loop's `start ≥ len` exit, both
returning `start - 1`). -/
def spaceEndIndexGo (l : List Char) : Nat → Nat → Int
  | 0, start => (start : Int) - 1
  | fuel + 1, start =>
    if h : start < l.length then
      if l.get ⟨start, h⟩ = ' ' then spaceEndIndexGo l fuel (start + 1)
      else (start : Int) - 1
    else (start : Int) - 1

/-- `BookmarkParser.__space_end_index`: advance `start` over spaces, return
`start - 1` (an `Int`, since the result may be `-1`). -/
def spaceEndIndex (l : List Char) (start : Nat) : Int :=
  spaceEndIndexGo l (l.length - start) start

/-- `BookmarkParser.__check_str_index` on an `Int` index (the source compares
`i < 0 or i >= len(str)`). -/
def checkStrIndex (lineNo : Nat) (l : List Char) (i : Int) : Except PErr Unit :=
  if i < 0 ∨ (l.length : Int) ≤ i then .error (.runtimeError lineNo msgFormatError)
  else .ok ()

/-- `BookmarkParser.__match_layer`: returns `(next position, level)`; a leading
space run whose length is not a multiple of 4 raises the layer error. -/
def matchLayer (lineNo : Nat) (l : List Char) (s : Nat) : Except PErr (Nat × Nat) := do
  checkStrIndex lineNo l (s : Int)
  if h : s < l.length then
    if l.get ⟨s, h⟩ ≠ ' ' then .ok (s, 0)
    else
      let e := spaceEndIndex l s
      checkStrIndex lineNo l e
      let spaceLen := (e - (s : Int) + 1).toNat
      if spaceLen % 4 ≠ 0 then .error (.runtimeError lineNo (msgLayerError spaceLen))
      else .ok (e.toNat + 1, spaceLen / 4)
  else .error (.runtimeError lineNo msgFormatError)

/-- Python slice `str[s:e]`. -/
def pySlice (l : List Char) (s e : Nat) : List Char := (l.take e).drop s

/-- `BookmarkParser.__match_title`: the title runs from `s` to the first
following space; no following space (or out-of-range start) raises. -/
def matchTitle (lineNo : Nat) (l : List Char) (s : Nat) : Except PErr (Nat × List Char) := do
  checkStrIndex lineNo l (s : Int)
  let e := spaceStartIndex l s
  checkStrIndex lineNo l e
  .ok (e.toNat, pySlice l s e.toNat)

/-- `BookmarkParser.__match_first_space`: consume the separator space run. -/
def matchFirstSpace (lineNo : Nat) (l : List Char) (s : Nat) : Except PErr Nat := do
  checkStrIndex lineNo l (s : Int)
  let e := spaceEndIndex l s
  checkStrIndex lineNo l e
  .ok (e.toNat + 1)

/-- `BookmarkParser.__match_page_no`: the rest of the line must be all digits
and parse to a value `≥ 1`; the base offset is added to the returned page. -/
def matchPageNo (lineNo pageNoBase : Nat) (l : List Char) (s : Nat) :
    Except PErr (Nat × Nat) := do
  checkStrIndex lineNo l (s : Int)
  let region := l.drop s
  if region.all isDigitChar then
    let v := digitsToNat region
    if v < 1 then .error (.runtimeError lineNo (msgInvalidPageNo v))
    else .ok (l.length, v + pageNoBase)
  else .error (.runtimeError lineNo msgPageNoNotNumeric)

/-- A tokenized bookmark line: `(layer, title, page number)`. -/
abbrev RawEntry := Nat × List Char × Nat

/-- `BookmarkParser.__parse_bookmark` (the caller only invokes it on non-empty
lines, so the `None`-shortcut of the source is not modelled). -/
def parseBookmark (lineNo pageNoBase : Nat) (l : List Char) : Except PErr RawEntry := do
  let (i, layer) ← matchLayer lineNo l 0
  let (i, title) ← matchTitle lineNo l i
  let i ← matchFirstSpace lineNo l i
  let (_, pageNo) ← matchPageNo lineNo pageNoBase l i
  .ok (layer, title, pageNo)

/-- A fully linked bookmark record `(id, parent_id, layer, title, page_no)`. -/
structure Linked where
  id : Nat
  parentId : Option Nat
  layer : Nat
  title : List Char
  pageNo : Nat
deriving DecidableEq, Repr

/-- Loop body of `BookmarkParser.__add_id_parent_id`: assign sequential ids,
look the parent up in the layer-to-most-recent-id dictionary (a `KeyError`
when absent), and record the current id for the entry's layer. -/
def addIdParentIdGo (nextId : Nat) (dict : List (Nat × Nat)) :
    List RawEntry → Except PErr (List Linked)
  | [] => .ok []
  | (layer, title, pageNo) :: rest => do
    let parentId ← if layer > 0 then
        match dict.lookup (layer - 1) with
        | some p => Except.ok (some p)
        | none => Except.error (.keyError (layer - 1))
      else Except.ok none
    let es ← addIdParentIdGo (nextId + 1) ((layer, nextId) :: dict) rest
    .ok (⟨nextId, parentId, layer, title, pageNo⟩ :: es)

/-- `BookmarkParser.__add_id_parent_id`: `None` for an empty list, otherwise
the linked list with ids starting at 1. -/
def addIdParentId (bml : List RawEntry) : Except PErr (Option (List Linked)) :=
  if bml.isEmpty then .ok none
  else do
    let l ← addIdParentIdGo 1 [] bml
    .ok (some l)

/-- `BookmarkParser.__incremental_serial_no`, step 1: the Python loop
`for i in range(0, layer + 1)` building the fresh counter dictionary, copying
an existing counter and initializing a missing one to 0.  (The association
list is keyed exactly by `0..n-1`; insertion order is irrelevant to lookups.) -/
def serialInit (old : List (Nat × Nat)) : Nat → List (Nat × Nat)
  | 0 => []
  | n + 1 => (n, ((old.lookup n).getD 0)) :: serialInit old n

/-- `BookmarkParser.__incremental_serial_no`: rebuild counters 0..layer and
then perform `serial_no_dict[layer] += 1`. -/
def incrementalSerialNo (old : List (Nat × Nat)) (layer : Nat) : List (Nat × Nat) :=
  (serialInit old (layer + 1)).map (fun p => if p.1 = layer then (p.1, p.2 + 1) else p)

/-- Loop of `BookmarkParser.__get_serial_no_string`: join the counters at
levels `0..n-1` with dots (a counter is always present when the source calls
this; a missing key is rendered as 0 rather than as Python's `KeyError`). -/
def serialLoop (d : List (Nat × Nat)) : Nat → String
  | 0 => ""
  | n + 1 =>
    let s := serialLoop d n
    (if s ≠ "" then s ++ "." else s) ++ toString ((d.lookup n).getD 0)

/-- `BookmarkParser.__get_serial_no_string`. -/
def getSerialNoString (d : List (Nat × Nat)) (layer : Nat) : String :=
  serialLoop d (layer + 1)

/-- Loop body of `BookmarkParser.__add_serial_no_to_title`. -/
def addSerialGo (dict : List (Nat × Nat)) : List Linked → List Linked
  | [] => []
  | e :: rest =>
    let d := incrementalSerialNo dict e.layer
    let title := (getSerialNoString d e.layer).data ++ (' ' :: e.title)
    ⟨e.id, e.parentId, e.layer, title, e.pageNo⟩ :: addSerialGo d rest

/-- `BookmarkParser.__add_serial_no_to_title`: `None` in, `None` out; empty
list in, `None` out; otherwise prefix every title with its serial number. -/
def addSerialNoToTitle (bml : Option (List Linked)) : Option (List Linked) :=
  match bml with
  | none => none
  | some [] => none
  | some l => some (addSerialGo [] l)

/-- Body-line loop of `BookmarkParser.parse` (lines 2 onward): strip the
newline, skip blank lines, tokenize the rest, threading the 1-based line
number. -/
def tokenizeBody (pageNoBase lineNo : Nat) : List (List Char) → Except PErr (List RawEntry)
  | [] => .ok []
  | l :: rest =>
    match removeEndLineChar l with
    | none => tokenizeBody pageNoBase (lineNo + 1) rest
    | some bm =>
      if bm = [] then tokenizeBody pageNoBase (lineNo + 1) rest
      else do
        let e ← parseBookmark lineNo pageNoBase bm
        let es ← tokenizeBody pageNoBase (lineNo + 1) rest
        .ok (e :: es)

/-- `BookmarkParser.parse` on the list of raw lines read from the file: an
empty file yields `None`; line 1 provides the page-number base; body lines are
tokenized, linked, and numbered. -/
def parse (lines : List (List Char)) : Except PErr (Option (List Linked)) :=
  match lines with
  | [] => .ok none
  | first :: rest => do
    let base ← parsePageNoBase 1 ((removeEndLineChar first).getD [])
    let bml ← tokenizeBody base 2 rest
    let linked ← addIdParentId bml
    .ok (addSerialNoToTitle linked)

/-! ### Helper lemmas about the index-scanning functions -/

/-- Number of spaces at the front of `l.drop s`. -/
def leadSpaces (l : List Char) (s : Nat) : Nat :=
  ((l.drop s).takeWhile (fun c => c == ' ')).length

theorem spaceEndIndexGo_eq (l : List Char) :
    ∀ fuel s, l.length ≤ s + fuel →
      spaceEndIndexGo l fuel s = (s : Int) + (leadSpaces l s : Int) - 1 := by
  intro fuel
  induction fuel with
  | zero =>
    intro s hs
    unfold spaceEndIndexGo
    have : l.drop s = [] := List.drop_eq_nil_of_le (by omega)
    simp [leadSpaces, this]
  | succ fuel IH =>
    intro s hs
    by_cases h : s < l.length
    · have hdrop : l.drop s = l.get ⟨s, h⟩ :: l.drop (s + 1) := by
        simpa using List.drop_eq_getElem_cons h
      unfold spaceEndIndexGo
      rw [dif_pos h]
      by_cases hsp : l.get ⟨s, h⟩ = ' '
      · rw [if_pos hsp, IH (s + 1) (by omega)]
        have : leadSpaces l s = leadSpaces l (s + 1) + 1 := by
          unfold leadSpaces
          rw [hdrop, List.takeWhile_cons]
          rw [if_pos (by simpa using hsp)]
          simp
        rw [this]
        push_cast
        ring
      · rw [if_neg hsp]
        have : leadSpaces l s = 0 := by
          unfold leadSpaces
          rw [hdrop, List.takeWhile_cons]
          rw [if_neg (by simpa using hsp)]
          simp
        rw [this]
        simp
    · unfold spaceEndIndexGo
      rw [dif_neg h]
      have : l.drop s = [] := List.drop_eq_nil_of_le (by omega)
      simp [leadSpaces, this]

theorem spaceEndIndex_eq (l : List Char) (s : Nat) :
    spaceEndIndex l s = (s : Int) + (leadSpaces l s : Int) - 1 :=
  spaceEndIndexGo_eq l (l.length - s) s (by omega)

theorem leadSpaces_le (l : List Char) (s : Nat) : leadSpaces l s ≤ l.length - s := by
  have h1 : ((l.drop s).takeWhile (fun c => c == ' ')).length ≤ (l.drop s).length :=
    (List.takeWhile_prefix _).length_le
  simpa [leadSpaces] using h1.trans_eq (List.length_drop s l)

theorem leadSpaces_zero_eq (l : List Char) :
    leadSpaces l 0 = (l.takeWhile (fun c => c == ' ')).length := by
  simp [leadSpaces]

theorem leadSpaces_pos_head {l : List Char} (h : l ≠ []) :
    (l.headI = ' ' ↔ 0 < leadSpaces l 0) := by
  cases l with
  | nil => simp at h
  | cons a rest =>
    constructor
    · intro ha
      simp [List.headI] at ha
      simp [leadSpaces, List.takeWhile_cons, ha]
    · intro hp
      by_contra ha
      simp [List.headI] at ha
      simp [leadSpaces, List.takeWhile_cons, ha] at hp

/-! ### Linkage pass: relating the dictionary to nearest-preceding lookup -/

/-- Largest index of an occurrence of `L` in `ls`, if any. -/
def lastIdxOf (L : Nat) : List Nat → Option Nat
  | [] => none
  | a :: rest =>
    match lastIdxOf L rest with
    | some j => some (j + 1)
    | none => if a = L then some 0 else none

theorem lastIdxOf_append_single (L a : Nat) (pre : List Nat) :
    lastIdxOf L (pre ++ [a]) =
      if a = L then some pre.length else lastIdxOf L pre := by
  induction pre with
  | nil => simp [lastIdxOf]
  | cons b pre IH =>
    have hcons : ∀ xs : List Nat, lastIdxOf L (b :: xs) =
        (match lastIdxOf L xs with
         | some j => some (j + 1)
         | none => if b = L then some 0 else none) := fun _ => rfl
    rw [List.cons_append, hcons (pre ++ [a]), IH]
    by_cases ha : a = L
    · rw [if_pos ha, if_pos ha]
      simp
    · rw [if_neg ha, if_neg ha, hcons pre]

theorem lastIdxOf_none_iff (L : Nat) (ls : List Nat) :
    lastIdxOf L ls = none ↔ ∀ m (hm : m < ls.length), ls.get ⟨m, hm⟩ ≠ L := by
  induction ls with
  | nil => simp [lastIdxOf]
  | cons a rest IH =>
    constructor
    · intro h m hm
      unfold lastIdxOf at h
      cases hr : lastIdxOf L rest with
      | some j => rw [hr] at h; simp at h
      | none =>
        rw [hr] at h
        by_cases ha : a = L
        · rw [if_pos ha] at h; simp at h
        · match m with
          | 0 => simpa using ha
          | m + 1 =>
            have := (IH.mp hr) m (by simpa using hm)
            simpa using this
    · intro h
      have ha : a ≠ L := by simpa using h 0 (by simp)
      have hr : lastIdxOf L rest = none := by
        apply IH.mpr
        intro m hm
        have := h (m + 1) (by simpa using hm)
        simpa using this
      unfold lastIdxOf
      rw [hr, if_neg ha]

theorem lastIdxOf_some_spec (L : Nat) (ls : List Nat) (j : Nat)
    (h : lastIdxOf L ls = some j) :
    ∃ hj : j < ls.length, ls.get ⟨j, hj⟩ = L ∧
      ∀ m (hm : m < ls.length), j < m → ls.get ⟨m, hm⟩ ≠ L := by
  induction ls generalizing j with
  | nil => simp [lastIdxOf] at h
  | cons a rest IH =>
    unfold lastIdxOf at h
    cases hr : lastIdxOf L rest with
    | some j' =>
      rw [hr] at h
      simp at h
      obtain ⟨hj', hget, hafter⟩ := IH j' hr
      refine ⟨by simpa [← h] using Nat.succ_lt_succ hj', ?_, ?_⟩
      · subst h; simpa using hget
      · intro m hm hjm
        subst h
        match m with
        | m + 1 =>
          have := hafter m (by simpa using hm) (by omega)
          simpa using this
    | none =>
      rw [hr] at h
      by_cases ha : a = L
      · rw [if_pos ha] at h
        simp at h
        subst h
        refine ⟨by simp, by simpa using ha, ?_⟩
        intro m hm hjm
        match m with
        | m + 1 =>
          have := (lastIdxOf_none_iff L rest).mp hr m (by simpa using hm)
          simpa using this
      · rw [if_neg ha] at h; simp at h

/-- The linkage dictionary is faithful to `lastIdxOf` over the already
processed prefix of layers (ids being positions shifted by 1). -/
def dictInv (pre : List Nat) (d : List (Nat × Nat)) : Prop :=
  ∀ L, d.lookup L = (lastIdxOf L pre).map (· + 1)

/-- Positional specification of `__add_id_parent_id`'s loop: the parent of a
level-`L` entry is the nearest preceding level-`(L-1)` entry. -/
def linkSpec (pre : List Nat) : List RawEntry → Except PErr (List Linked)
  | [] => .ok []
  | (layer, title, pageNo) :: rest => do
    let parentId ← if layer > 0 then
        match lastIdxOf (layer - 1) pre with
        | some j => Except.ok (some (j + 1))
        | none => Except.error (.keyError (layer - 1))
      else Except.ok none
    let es ← linkSpec (pre ++ [layer]) rest
    .ok (⟨pre.length + 1, parentId, layer, title, pageNo⟩ :: es)

theorem dictInv_nil : dictInv [] [] := by
  intro L
  simp [lastIdxOf, List.lookup]

theorem dictInv_extend {pre : List Nat} {d : List (Nat × Nat)} (h : dictInv pre d)
    (a : Nat) : dictInv (pre ++ [a]) ((a, pre.length + 1) :: d) := by
  intro L
  rw [lastIdxOf_append_single]
  by_cases ha : a = L
  · subst ha
    simp [List.lookup]
  · rw [if_neg ha]
    have hne : (L == a) = false := by simpa using Ne.symm ha
    simp only [List.lookup, hne]
    exact h L

theorem addIdParentIdGo_eq_linkSpec :
    ∀ (rest : List RawEntry) (pre : List Nat) (d : List (Nat × Nat)),
      dictInv pre d →
      addIdParentIdGo (pre.length + 1) d rest = linkSpec pre rest := by
  intro rest
  induction rest with
  | nil => intro pre d _; rfl
  | cons e rest IH =>
    intro pre d hinv
    obtain ⟨layer, title, pageNo⟩ := e
    have hrec : addIdParentIdGo (pre.length + 1 + 1) ((layer, pre.length + 1) :: d) rest
        = linkSpec (pre ++ [layer]) rest := by
      have := IH (pre ++ [layer]) ((layer, pre.length + 1) :: d) (dictInv_extend hinv layer)
      simpa using this
    by_cases hl : layer > 0
    · have hlook := hinv (layer - 1)
      cases hidx : lastIdxOf (layer - 1) pre with
      | some j =>
        rw [hidx] at hlook
        simp only [addIdParentIdGo, linkSpec, hl, if_pos hl, hlook, hidx,
          Option.map_some]
        simp [hrec]
      | none =>
        rw [hidx] at hlook
        simp only [addIdParentIdGo, linkSpec, hl, if_pos hl, hlook, hidx,
          Option.map_none]
        rfl
    · simp only [addIdParentIdGo, linkSpec, if_neg hl]
      simp [hrec]

theorem linkSpec_ok_spec :
    ∀ (rest : List RawEntry) (pre : List Nat) (out : List Linked),
      linkSpec pre rest = .ok out →
      out.length = rest.length ∧
      ∀ k (hk : k < out.length) (hk' : k < rest.length),
        (out.get ⟨k, hk⟩).id = pre.length + k + 1 ∧
        (out.get ⟨k, hk⟩).layer = (rest.get ⟨k, hk'⟩).1 ∧
        (out.get ⟨k, hk⟩).title = (rest.get ⟨k, hk'⟩).2.1 ∧
        (out.get ⟨k, hk⟩).pageNo = (rest.get ⟨k, hk'⟩).2.2 ∧
        ((rest.get ⟨k, hk'⟩).1 = 0 → (out.get ⟨k, hk⟩).parentId = none) ∧
        (0 < (rest.get ⟨k, hk'⟩).1 →
          ∃ j, lastIdxOf ((rest.get ⟨k, hk'⟩).1 - 1)
                (pre ++ (rest.map (fun e => e.1)).take k) = some j ∧
            (out.get ⟨k, hk⟩).parentId = some (j + 1)) := by
  intro rest
  induction rest with
  | nil =>
    intro pre out h
    simp only [linkSpec] at h
    cases h
    simp
  | cons e rest IH =>
    intro pre out h
    obtain ⟨L, t, p⟩ := e
    by_cases hl : 0 < L
    · cases hidx : lastIdxOf (L - 1) pre with
      | none =>
        simp only [linkSpec, if_pos hl, hidx] at h
        exact absurd h (by simp [Bind.bind, Except.bind])
      | some j =>
        simp only [linkSpec, if_pos hl, hidx] at h
        cases hrec : linkSpec (pre ++ [L]) rest with
        | error err => rw [hrec] at h; exact absurd h (by simp [Bind.bind, Except.bind])
        | ok es =>
          rw [hrec] at h
          simp only [Bind.bind, Except.bind] at h
          cases h
          obtain ⟨hlen, hall⟩ := IH (pre ++ [L]) es hrec
          constructor
          · simpa using hlen
          · intro k hk hk'
            match k with
            | 0 =>
              refine ⟨by simp, by simp, by simp, by simp, ?_, ?_⟩
              · intro h0
                simp at h0
                omega
              · intro _
                refine ⟨j, ?_, by simp⟩
                simpa using hidx
            | k + 1 =>
              have hk2 : k < es.length := by simpa using hk
              have hk2' : k < rest.length := by simpa using hk'
              obtain ⟨h1, h2, h3, h4, h5, h6⟩ := hall k hk2 hk2'
              refine ⟨?_, by simpa using h2, by simpa using h3, by simpa using h4,
                by simpa using h5, ?_⟩
              · simp only [List.get_cons_succ, h1]
                simp only [List.length_append, List.length_cons, List.length_nil]
                omega
              · intro hpos
                obtain ⟨j', hj', hpid⟩ := h6 (by simpa using hpos)
                refine ⟨j', ?_, by simpa using hpid⟩
                have hlist : pre ++ ((((L, t, p) : RawEntry) :: rest).map
                      (fun e => e.1)).take (k + 1)
                    = (pre ++ [L]) ++ (rest.map (fun e => e.1)).take k := by
                  simp
                simp only [List.get_cons_succ, hlist]
                exact hj'
    · have hL0 : L = 0 := by omega
      subst hL0
      simp only [linkSpec, if_neg hl] at h
      cases hrec : linkSpec (pre ++ [0]) rest with
      | error err => rw [hrec] at h; exact absurd h (by simp [Bind.bind, Except.bind])
      | ok es =>
        rw [hrec] at h
        simp only [Bind.bind, Except.bind] at h
        cases h
        obtain ⟨hlen, hall⟩ := IH (pre ++ [0]) es hrec
        constructor
        · simpa using hlen
        · intro k hk hk'
          match k with
          | 0 =>
            refine ⟨by simp, by simp, by simp, by simp, by simp, ?_⟩
            intro hpos
            simp at hpos
          | k + 1 =>
            have hk2 : k < es.length := by simpa using hk
            have hk2' : k < rest.length := by simpa using hk'
            obtain ⟨h1, h2, h3, h4, h5, h6⟩ := hall k hk2 hk2'
            refine ⟨?_, by simpa using h2, by simpa using h3, by simpa using h4,
              by simpa using h5, ?_⟩
            · simp only [List.get_cons_succ, h1]
              simp only [List.length_append, List.length_cons, List.length_nil]
              omega
            · intro hpos
              obtain ⟨j', hj', hpid⟩ := h6 (by simpa using hpos)
              refine ⟨j', ?_, by simpa using hpid⟩
              have hlist : pre ++ ((((0, t, p) : RawEntry) :: rest).map
                    (fun e => e.1)).take (k + 1)
                  = (pre ++ [0]) ++ (rest.map (fun e => e.1)).take k := by
                simp
              simp only [List.get_cons_succ, hlist]
              exact hj'

theorem linkSpec_fail (rest : List RawEntry) (pre : List Nat) (k : Nat)
    (hk : k < rest.length) (hpos : 0 < (rest.get ⟨k, hk⟩).1)
    (hnone : lastIdxOf ((rest.get ⟨k, hk⟩).1 - 1)
      (pre ++ (rest.map (fun e => e.1)).take k) = none) :
    ∃ e, linkSpec pre rest = .error e := by
  cases h : linkSpec pre rest with
  | error e => exact ⟨e, rfl⟩
  | ok out =>
    obtain ⟨hlen, hall⟩ := linkSpec_ok_spec rest pre out h
    obtain ⟨j, hj, _⟩ := (hall k (by omega) hk).2.2.2.2.2 hpos
    rw [hnone] at hj
    cases hj

/-! ### Serial-numbering pass: spec-side counter machine and refinement -/

/-- Modelled from the spec's wording for the numbering step: process an entry
at level `L` by initializing any missing counter among levels `0..L` to 0 and
incrementing the counter at level `L`; counters above `L` are discarded (they
restart from 0 when that level next appears). -/
def specStep (c : Nat → Option Nat) (L : Nat) : Nat → Option Nat :=
  fun i =>
    if L < i then none
    else if i = L then some ((c i).getD 0 + 1)
    else some ((c i).getD 0)

/-- Counter state after processing a list of levels, starting from a given
state (the fresh state being `fun _ => none`). -/
def specCounters (c : Nat → Option Nat) : List Nat → (Nat → Option Nat)
  | [] => c
  | L :: rest => specCounters (specStep c L) rest

/-- Spec-side rendering of counters `0..n-1` joined with dots. -/
def specSerialLoop (c : Nat → Option Nat) : Nat → String
  | 0 => ""
  | n + 1 =>
    let s := specSerialLoop c n
    (if s ≠ "" then s ++ "." else s) ++ toString ((c n).getD 0)

/-- The dotted serial string `n0.n1.....nL` of an entry at level `L`. -/
def specSerialStr (c : Nat → Option Nat) (L : Nat) : String :=
  specSerialLoop c (L + 1)

theorem lookup_serialInit (old : List (Nat × Nat)) (n i : Nat) :
    (serialInit old n).lookup i =
      if i < n then some ((old.lookup i).getD 0) else none := by
  induction n with
  | zero => simp [serialInit]
  | succ n IH =>
    unfold serialInit
    by_cases hi : i = n
    · subst hi
      simp [List.lookup]
    · have hne : (i == n) = false := by simpa using hi
      simp only [List.lookup, hne, IH]
      by_cases hlt : i < n
      · rw [if_pos hlt, if_pos (by omega)]
      · rw [if_neg hlt, if_neg (by omega)]

theorem lookup_map_incr (xs : List (Nat × Nat)) (L i : Nat) :
    (xs.map (fun p => if p.1 = L then (p.1, p.2 + 1) else p)).lookup i =
      (xs.lookup i).map (fun v => if i = L then v + 1 else v) := by
  induction xs with
  | nil => simp
  | cons p xs IH =>
    obtain ⟨k, v⟩ := p
    rw [List.map_cons]
    by_cases hik : i = k
    · subst hik
      by_cases hk : i = L
      · rw [if_pos (show ((i, v).1 = L) from hk)]
        rw [List.lookup_cons_self, List.lookup_cons_self]
        simp [hk]
      · rw [if_neg (show ¬ ((i, v).1 = L) from hk)]
        rw [List.lookup_cons_self, List.lookup_cons_self]
        simp [hk]
    · have hne : (i == k) = false := by simpa using hik
      by_cases hk : k = L
      · rw [if_pos (show ((k, v).1 = L) from hk)]
        rw [List.lookup_cons, List.lookup_cons]
        simp only [hne]
        exact IH
      · rw [if_neg (show ¬ ((k, v).1 = L) from hk)]
        rw [List.lookup_cons, List.lookup_cons]
        simp only [hne]
        exact IH

theorem lookup_incrementalSerialNo (d : List (Nat × Nat)) (L i : Nat) :
    (incrementalSerialNo d L).lookup i = specStep (fun j => d.lookup j) L i := by
  unfold incrementalSerialNo specStep
  rw [lookup_map_incr, lookup_serialInit]
  by_cases h1 : L < i
  · rw [if_neg (show ¬ i < L + 1 by omega), if_pos h1]
    simp
  · rw [if_pos (show i < L + 1 by omega), if_neg h1]
    by_cases h3 : i = L <;> simp [h3]

theorem specStep_congr {d : List (Nat × Nat)} {c : Nat → Option Nat}
    (h : ∀ i, d.lookup i = c i) (L i : Nat) :
    (incrementalSerialNo d L).lookup i = specStep c L i := by
  rw [lookup_incrementalSerialNo]
  unfold specStep
  simp only [h]

theorem serialLoop_congr {d : List (Nat × Nat)} {c : Nat → Option Nat}
    (h : ∀ i, d.lookup i = c i) : ∀ n, serialLoop d n = specSerialLoop c n := by
  intro n
  induction n with
  | zero => rfl
  | succ n IH =>
    unfold serialLoop specSerialLoop
    rw [IH, h n]

theorem addSerialGo_spec :
    ∀ (l : List Linked) (d : List (Nat × Nat)) (c : Nat → Option Nat),
      (∀ i, d.lookup i = c i) →
      (addSerialGo d l).length = l.length ∧
      ∀ k (hk : k < (addSerialGo d l).length) (hk' : k < l.length),
        (addSerialGo d l).get ⟨k, hk⟩ =
          { l.get ⟨k, hk'⟩ with
            title := (specSerialStr
                (specCounters c ((l.map (fun e => e.layer)).take (k + 1)))
                ((l.get ⟨k, hk'⟩).layer)).data ++ ' ' :: (l.get ⟨k, hk'⟩).title } := by
  intro l
  induction l with
  | nil =>
    intro d c _
    exact ⟨rfl, fun k hk => absurd hk (by simp [addSerialGo])⟩
  | cons e rest IH =>
    intro d c h
    have hagree : ∀ i, (incrementalSerialNo d e.layer).lookup i = specStep c e.layer i :=
      specStep_congr h e.layer
    obtain ⟨hlen, hall⟩ := IH (incrementalSerialNo d e.layer) (specStep c e.layer) hagree
    constructor
    · simp [addSerialGo, hlen]
    · intro k hk hk'
      match k with
      | 0 =>
        have hstr : serialLoop (incrementalSerialNo d e.layer) (e.layer + 1) =
            specSerialLoop (specStep c e.layer) (e.layer + 1) :=
          serialLoop_congr hagree (e.layer + 1)
        show (⟨e.id, e.parentId, e.layer,
            (serialLoop (incrementalSerialNo d e.layer) (e.layer + 1)).data ++
              ' ' :: e.title, e.pageNo⟩ : Linked) =
          ⟨e.id, e.parentId, e.layer,
            (specSerialLoop (specStep c e.layer) (e.layer + 1)).data ++
              ' ' :: e.title, e.pageNo⟩
        rw [hstr]
      | k + 1 =>
        have hk2 : k < (addSerialGo (incrementalSerialNo d e.layer) rest).length := by
          simpa [addSerialGo] using hk
        have hk2' : k < rest.length := by simpa using hk'
        exact hall k hk2 hk2'

/-! ### Shapes of errors raised by the tokenizing functions -/

theorem checkStrIndex_err {ln : Nat} {l : List Char} {i : Int} {e : PErr}
    (h : checkStrIndex ln l i = .error e) : e = .runtimeError ln msgFormatError := by
  unfold checkStrIndex at h
  split at h
  · simp only [Except.error.injEq] at h
    exact h.symm
  · simp at h

theorem checkStrIndex_ok {ln : Nat} {l : List Char} {i : Int}
    (h : ¬ (i < 0 ∨ (l.length : Int) ≤ i)) : checkStrIndex ln l i = .ok () := by
  unfold checkStrIndex
  rw [if_neg h]

theorem matchLayer_err {ln : Nat} {l : List Char} {s : Nat} {e : PErr}
    (h : matchLayer ln l s = .error e) : ∃ m, e = .runtimeError ln m := by
  unfold matchLayer at h
  simp only [Bind.bind, Except.bind] at h
  split at h
  · rename_i e1 hc
    simp only [Except.error.injEq] at h
    exact ⟨msgFormatError, by rw [← h]; exact (checkStrIndex_err hc) ⟩
  · split at h
    · split at h
      · simp at h
      · split at h
        · rename_i hc2
          simp only [Except.error.injEq] at h
          exact ⟨msgFormatError, by rw [← h]; exact checkStrIndex_err hc2⟩
        · rename_i u hc2
          split at h
          · simp only [Except.error.injEq] at h
            exact ⟨_, h.symm⟩
          · simp at h
    · simp only [Except.error.injEq] at h
      exact ⟨msgFormatError, h.symm⟩

theorem matchTitle_err {ln : Nat} {l : List Char} {s : Nat} {e : PErr}
    (h : matchTitle ln l s = .error e) : ∃ m, e = .runtimeError ln m := by
  unfold matchTitle at h
  simp only [Bind.bind, Except.bind] at h
  split at h
  · rename_i e1 hc
    simp only [Except.error.injEq] at h
    exact ⟨msgFormatError, by rw [← h]; exact checkStrIndex_err hc⟩
  · split at h
    · rename_i e1 hc
      simp only [Except.error.injEq] at h
      exact ⟨msgFormatError, by rw [← h]; exact checkStrIndex_err hc⟩
    · simp at h

theorem matchFirstSpace_err {ln : Nat} {l : List Char} {s : Nat} {e : PErr}
    (h : matchFirstSpace ln l s = .error e) : ∃ m, e = .runtimeError ln m := by
  unfold matchFirstSpace at h
  simp only [Bind.bind, Except.bind] at h
  split at h
  · rename_i e1 hc
    simp only [Except.error.injEq] at h
    exact ⟨msgFormatError, by rw [← h]; exact checkStrIndex_err hc⟩
  · split at h
    · rename_i e1 hc
      simp only [Except.error.injEq] at h
      exact ⟨msgFormatError, by rw [← h]; exact checkStrIndex_err hc⟩
    · simp at h

theorem matchPageNo_err {ln b : Nat} {l : List Char} {s : Nat} {e : PErr}
    (h : matchPageNo ln b l s = .error e) : ∃ m, e = .runtimeError ln m := by
  unfold matchPageNo at h
  simp only [Bind.bind, Except.bind] at h
  split at h
  · rename_i e1 hc
    simp only [Except.error.injEq] at h
    exact ⟨msgFormatError, by rw [← h]; exact checkStrIndex_err hc⟩
  · split at h
    · split at h
      · simp only [Except.error.injEq] at h
        exact ⟨_, h.symm⟩
      · simp at h
    · simp only [Except.error.injEq] at h
      exact ⟨msgPageNoNotNumeric, h.symm⟩

theorem parseBookmark_err {ln b : Nat} {l : List Char} {e : PErr}
    (h : parseBookmark ln b l = .error e) : ∃ m, e = .runtimeError ln m := by
  unfold parseBookmark at h
  simp only [Bind.bind, Except.bind] at h
  split at h
  · rename_i e1 hc
    simp only [Except.error.injEq] at h
    subst h
    exact matchLayer_err hc
  · split at h
    · rename_i e1 hc
      simp only [Except.error.injEq] at h
      subst h
      exact matchTitle_err hc
    · split at h
      · rename_i e1 hc
        simp only [Except.error.injEq] at h
        subst h
        exact matchFirstSpace_err hc
      · split at h
        · rename_i e1 hc
          simp only [Except.error.injEq] at h
          subst h
          exact matchPageNo_err hc
        · simp at h

theorem parsePageNoBase_err {ln : Nat} {l : List Char} {e : PErr}
    (h : parsePageNoBase ln l = .error e) : e = .runtimeError ln msgPageNoNotNumeric := by
  unfold parsePageNoBase at h
  split at h
  · simp at h
  · split at h
    · simp at h
    · simp only [Except.error.injEq] at h
      exact h.symm

/-! ### Success characterization of the page-number matcher -/

theorem matchPageNo_ok {ln b : Nat} {l : List Char} {s : Nat} {e2 p : Nat}
    (h : matchPageNo ln b l s = .ok (e2, p)) :
    s < l.length ∧ (l.drop s).all isDigitChar ∧ 1 ≤ digitsToNat (l.drop s) ∧
      e2 = l.length ∧ p = digitsToNat (l.drop s) + b := by
  unfold matchPageNo at h
  simp only [Bind.bind, Except.bind] at h
  split at h
  · simp at h
  · rename_i u hc
    have hs : s < l.length := by
      by_contra hcon
      rw [checkStrIndex] at hc
      rw [if_pos (by omega)] at hc
      simp at hc
    split at h
    · split at h
      · simp at h
      · rename_i hdig hv
        simp only [Except.ok.injEq, Prod.mk.injEq] at h
        exact ⟨hs, hdig, by omega, h.1.symm, h.2.symm⟩
    · simp at h

theorem parseBookmark_ok_pageNo {ln b : Nat} {l : List Char} {L : Nat}
    {t : List Char} {p : Nat} (h : parseBookmark ln b l = .ok (L, t, p)) :
    ∃ s, s < l.length ∧ (l.drop s).all isDigitChar ∧
      1 ≤ digitsToNat (l.drop s) ∧ p = digitsToNat (l.drop s) + b := by
  unfold parseBookmark at h
  simp only [Bind.bind, Except.bind] at h
  split at h
  · simp at h
  · split at h
    · simp at h
    · split at h
      · simp at h
      · split at h
        · simp at h
        · rename_i r4 hm4
          obtain ⟨i1, layer⟩ := ‹Nat × Nat›
          simp only [Except.ok.injEq, Prod.mk.injEq] at h
          obtain ⟨e2, p'⟩ := r4
          obtain ⟨hs, hdig, hv, _, hp⟩ := matchPageNo_ok hm4
          exact ⟨_, hs, hdig, hv, by rw [← h.2.2]; exact hp⟩

/-! ### Characterization of the layer matcher -/

theorem matchLayer_spec (ln : Nat) (l : List Char) (hne : l ≠ []) :
    (leadSpaces l 0 % 4 ≠ 0 →
      matchLayer ln l 0 = .error (.runtimeError ln (msgLayerError (leadSpaces l 0)))) ∧
    (leadSpaces l 0 % 4 = 0 →
      matchLayer ln l 0 = .ok (leadSpaces l 0, leadSpaces l 0 / 4)) := by
  have hlen : 0 < l.length := List.length_pos.mpr hne
  have hc : checkStrIndex ln l ((0 : Nat) : Int) = .ok () := by
    unfold checkStrIndex
    rw [if_neg (by omega)]
  by_cases hsp : l.get ⟨0, hlen⟩ = ' '
  · have hn : 0 < leadSpaces l 0 := by
      have hdrop : l.drop 0 = l.get ⟨0, hlen⟩ :: l.drop 1 := by
        simpa using List.drop_eq_getElem_cons hlen
      unfold leadSpaces
      rw [hdrop, List.takeWhile_cons, if_pos (by simpa using hsp)]
      simp
    have hle : leadSpaces l 0 ≤ l.length := by
      have := leadSpaces_le l 0
      omega
    have hend : spaceEndIndex l 0 = (leadSpaces l 0 : Int) - 1 := by
      rw [spaceEndIndex_eq]
      push_cast
      ring
    have hc2 : checkStrIndex ln l (spaceEndIndex l 0) = .ok () := by
      unfold checkStrIndex
      rw [hend, if_neg (by omega)]
    have htoNat : ((spaceEndIndex l 0) - ((0 : Nat) : Int) + 1).toNat = leadSpaces l 0 := by
      rw [hend]
      omega
    have htoNat2 : (spaceEndIndex l 0).toNat = leadSpaces l 0 - 1 := by
      rw [hend]
      omega
    constructor
    · intro hmod
      unfold matchLayer
      simp only [Bind.bind, Except.bind, hc]
      rw [dif_pos hlen, if_neg (not_not_intro hsp)]
      simp only [hc2, htoNat]
      rw [if_pos hmod]
    · intro hmod
      unfold matchLayer
      simp only [Bind.bind, Except.bind, hc]
      rw [dif_pos hlen, if_neg (not_not_intro hsp)]
      simp only [hc2, htoNat, htoNat2]
      rw [if_neg (by omega)]
      have : leadSpaces l 0 - 1 + 1 = leadSpaces l 0 := by omega
      rw [this]
  · have hn0 : leadSpaces l 0 = 0 := by
      have hdrop : l.drop 0 = l.get ⟨0, hlen⟩ :: l.drop 1 := by
        simpa using List.drop_eq_getElem_cons hlen
      unfold leadSpaces
      rw [hdrop, List.takeWhile_cons, if_neg (by simpa using hsp)]
      simp
    constructor
    · intro hmod
      rw [hn0] at hmod
      omega
    · intro _
      unfold matchLayer
      simp only [Bind.bind, Except.bind, hc]
      rw [dif_pos hlen, if_pos hsp, hn0]

/-! ### Lemmas about the line loop and the linkage wrapper -/

theorem addIdParentIdGo_err :
    ∀ (rest : List RawEntry) (n : Nat) (d : List (Nat × Nat)) (e : PErr),
      addIdParentIdGo n d rest = .error e → ∃ k, e = .keyError k := by
  intro rest
  induction rest with
  | nil =>
    intro n d e h
    simp only [addIdParentIdGo] at h
    simp at h
  | cons x rest IH =>
    intro n d e h
    obtain ⟨layer, title, pageNo⟩ := x
    by_cases hl : layer > 0
    · cases hlook : d.lookup (layer - 1) with
      | none =>
        unfold addIdParentIdGo at h
        simp only [if_pos hl, hlook, Bind.bind, Except.bind] at h
        simp only [Except.error.injEq] at h
        exact ⟨_, h.symm⟩
      | some p =>
        unfold addIdParentIdGo at h
        simp only [if_pos hl, hlook, Bind.bind, Except.bind] at h
        split at h
        · rename_i e1 hrec
          simp only [Except.error.injEq] at h
          subst h
          exact IH _ _ _ hrec
        · simp at h
    · unfold addIdParentIdGo at h
      simp only [if_neg hl, Bind.bind, Except.bind] at h
      split at h
      · rename_i e1 hrec
        simp only [Except.error.injEq] at h
        subst h
        exact IH _ _ _ hrec
      · simp at h

theorem addIdParentId_err {bml : List RawEntry} {e : PErr}
    (h : addIdParentId bml = .error e) : ∃ k, e = .keyError k := by
  unfold addIdParentId at h
  split at h
  · simp at h
  · simp only [Bind.bind, Except.bind] at h
    split at h
    · rename_i e1 hgo
      simp only [Except.error.injEq] at h
      subst h
      exact addIdParentIdGo_err _ _ _ _ hgo
    · simp at h

theorem tokenizeBody_skip (base ln : Nat) (l : List Char) (rest : List (List Char))
    (h : removeEndLineChar l = none ∨ removeEndLineChar l = some []) :
    tokenizeBody base ln (l :: rest) = tokenizeBody base (ln + 1) rest := by
  cases h with
  | inl h => simp [tokenizeBody, h]
  | inr h => simp [tokenizeBody, h]

theorem tokenizeBody_blank_all :
    ∀ (ls : List (List Char)) (base ln : Nat),
      (∀ l ∈ ls, removeEndLineChar l = none ∨ removeEndLineChar l = some []) →
      tokenizeBody base ln ls = .ok [] := by
  intro ls
  induction ls with
  | nil => intro base ln _; rfl
  | cons l rest IH =>
    intro base ln h
    rw [tokenizeBody_skip base ln l rest (h l (by simp))]
    exact IH base (ln + 1) (fun x hx => h x (by simp [hx]))

theorem tokenizeBody_err :
    ∀ (ls : List (List Char)) (base ln : Nat) (e : PErr),
      tokenizeBody base ln ls = .error e →
      ∃ n m, e = .runtimeError n m ∧ ln ≤ n ∧ n < ln + ls.length := by
  intro ls
  induction ls with
  | nil =>
    intro base ln e h
    simp only [tokenizeBody] at h
    simp at h
  | cons l rest IH =>
    intro base ln e h
    unfold tokenizeBody at h
    split at h
    · obtain ⟨n, m, he, h1, h2⟩ := IH base (ln + 1) e h
      exact ⟨n, m, he, by omega, by simp; omega⟩
    · rename_i bm hbm
      split at h
      · obtain ⟨n, m, he, h1, h2⟩ := IH base (ln + 1) e h
        exact ⟨n, m, he, by omega, by simp; omega⟩
      · simp only [Bind.bind, Except.bind] at h
        split at h
        · rename_i e1 hp
          simp only [Except.error.injEq] at h
          subst h
          obtain ⟨m, hm⟩ := parseBookmark_err hp
          exact ⟨ln, m, hm, by omega, by simp⟩
        · split at h
          · rename_i e1 hrec
            simp only [Except.error.injEq] at h
            subst h
            obtain ⟨n, m, he, h1, h2⟩ := IH base (ln + 1) e1 hrec
            exact ⟨n, m, he, by omega, by simp; omega⟩
          · simp at h

/-- Every element of the tokenized body is produced by `parseBookmark` on a
stripped non-blank line, at some line number `≥ ln`. -/
theorem tokenizeBody_mem :
    ∀ (ls : List (List Char)) (base ln : Nat) (bml : List RawEntry),
      tokenizeBody base ln ls = .ok bml →
      ∀ x ∈ bml, ∃ n bm, bm ≠ [] ∧ parseBookmark n base bm = .ok x := by
  intro ls
  induction ls with
  | nil =>
    intro base ln bml h x hx
    simp only [tokenizeBody] at h
    cases h
    simp at hx
  | cons l rest IH =>
    intro base ln bml h x hx
    unfold tokenizeBody at h
    split at h
    · exact IH base (ln + 1) bml h x hx
    · rename_i bm hbm
      split at h
      · exact IH base (ln + 1) bml h x hx
      · rename_i hne
        simp only [Bind.bind, Except.bind] at h
        split at h
        · simp at h
        · rename_i r hp
          split at h
          · simp at h
          · rename_i es hrec
            simp only [Except.ok.injEq] at h
            subst h
            rw [List.mem_cons] at hx
            rcases hx with hx | hx
            · subst hx
              exact ⟨ln, bm, hne, hp⟩
            · exact IH base (ln + 1) es hrec x hx

/-- Decomposition of a successful, non-empty `parse`. -/
theorem parse_ok_some {lines : List (List Char)} {out : List Linked}
    (h : parse lines = .ok (some out)) :
    ∃ first rest base bml l1, lines = first :: rest ∧
      parsePageNoBase 1 ((removeEndLineChar first).getD []) = .ok base ∧
      tokenizeBody base 2 rest = .ok bml ∧ bml ≠ [] ∧
      addIdParentIdGo 1 [] bml = .ok l1 ∧ l1 ≠ [] ∧
      out = addSerialGo [] l1 := by
  match lines with
  | [] => simp [parse] at h
  | first :: rest =>
    unfold parse at h
    simp only [Bind.bind, Except.bind] at h
    split at h
    · simp at h
    · rename_i base hbase
      split at h
      · simp at h
      · rename_i bml htok
        split at h
        · simp at h
        · rename_i linked hlink
          simp only [Except.ok.injEq] at h
          unfold addIdParentId at hlink
          split at hlink
          · rename_i hemp
            simp only [Except.ok.injEq] at hlink
            subst hlink
            simp [addSerialNoToTitle] at h
          · rename_i hemp
            simp only [Bind.bind, Except.bind] at hlink
            split at hlink
            · simp at hlink
            · rename_i l1 hgo
              simp only [Except.ok.injEq] at hlink
              subst hlink
              match l1, h with
              | [], h => simp [addSerialNoToTitle] at h
              | x :: l1, h =>
                refine ⟨first, rest, base, bml, x :: l1, rfl, hbase, htok,
                  by simpa using hemp, hgo, by simp, ?_⟩
                simp only [addSerialNoToTitle, Option.some.injEq] at h
                exact h.symm

theorem parseBookmark_layer_err {ln base : Nat} {l : List Char} {err : PErr}
    (h : matchLayer ln l 0 = .error err) : parseBookmark ln base l = .error err := by
  unfold parseBookmark
  simp only [Bind.bind, Except.bind, h]

theorem parseBookmark_ok_layer {ln base : Nat} {l : List Char} {L : Nat}
    {t : List Char} {p : Nat} (h : parseBookmark ln base l = .ok (L, t, p)) :
    ∃ i, matchLayer ln l 0 = .ok (i, L) := by
  unfold parseBookmark at h
  simp only [Bind.bind, Except.bind] at h
  split at h
  · simp at h
  · rename_i r hml
    obtain ⟨i, layer⟩ := r
    split at h
    · simp at h
    · split at h
      · simp at h
      · split at h
        · simp at h
        · simp only [Except.ok.injEq, Prod.mk.injEq] at h
          exact ⟨i, by rw [← h.1]; exact hml⟩

/-! ### Claim theorems -/

/-- Claim C3: for every body line beginning with a run of `n` spaces, if `n`
is not a multiple of 4 the line's parse fails with the layer format error;
otherwise the computed level is exactly `n / 4`; a line starting with a
non-space character gets level 0; and any successfully tokenized line has
level `n / 4` with `n` a multiple of 4. -/
theorem claim_C3 (ln base : Nat) (l : List Char) (hne : l ≠ []) :
    (leadSpaces l 0 % 4 ≠ 0 →
      parseBookmark ln base l = .error (.runtimeError ln (msgLayerError (leadSpaces l 0)))) ∧
    (leadSpaces l 0 % 4 = 0 →
      matchLayer ln l 0 = .ok (leadSpaces l 0, leadSpaces l 0 / 4)) ∧
    (l.headI ≠ ' ' → matchLayer ln l 0 = .ok (0, 0)) ∧
    (∀ (L : Nat) (t : List Char) (p : Nat), parseBookmark ln base l = .ok (L, t, p) →
      leadSpaces l 0 % 4 = 0 ∧ L = leadSpaces l 0 / 4) := by
  obtain ⟨herr, hok⟩ := matchLayer_spec ln l hne
  refine ⟨fun hmod => parseBookmark_layer_err (herr hmod), hok, ?_, ?_⟩
  · intro hsp
    have h0 : leadSpaces l 0 = 0 := by
      by_contra hpos
      exact hsp ((leadSpaces_pos_head hne).mpr (by omega))
    have := hok (by rw [h0])
    rw [h0] at this
    exact this
  · intro L t p hp
    by_cases hmod : leadSpaces l 0 % 4 = 0
    · obtain ⟨i, hml⟩ := parseBookmark_ok_layer hp
      rw [hok hmod] at hml
      simp only [Except.ok.injEq, Prod.mk.injEq] at hml
      exact ⟨hmod, hml.2.symm⟩
    · rw [parseBookmark_layer_err (herr hmod)] at hp
      simp at hp

/-- C3 witness: the spec scenario, a 2-space indent fails with the layer
error, and a non-indented line gets level 0. -/
theorem claim_C3_witness :
    parseBookmark 2 0 ("  Bad 3".data) =
      .error (.runtimeError 2 (msgLayerError 2)) ∧
    matchLayer 2 ("Intro 5".data) 0 = .ok (0, 0) :=
  ⟨(claim_C3 2 0 ("  Bad 3".data) (by decide)).1 (by decide),
   (claim_C3 2 0 ("Intro 5".data) (by decide)).2.2.1 (by decide)⟩

/-- Claim C4: the header base offset is 0 for an empty header, the header's
value for an all-digit header, and a non-digit header fails with the
not-numeric error; and every page number returned by the page matcher (and
hence every tokenized entry, and every entry of a successful `parse`) is the
digit region's value plus the base offset. -/
theorem claim_C4 (ln b s : Nat) (l hd : List Char) :
    (hd = [] → parsePageNoBase ln hd = .ok 0) ∧
    (hd.all isDigitChar → parsePageNoBase ln hd = .ok (digitsToNat hd)) ∧
    (¬ hd.all isDigitChar →
      parsePageNoBase ln hd = .error (.runtimeError ln msgPageNoNotNumeric)) ∧
    (∀ e2 p, matchPageNo ln b l s = .ok (e2, p) → p = digitsToNat (l.drop s) + b) ∧
    (∀ (L : Nat) (t : List Char) (p : Nat), parseBookmark ln b l = .ok (L, t, p) →
      ∃ s2, s2 < l.length ∧ (l.drop s2).all isDigitChar ∧
        p = digitsToNat (l.drop s2) + b) ∧
    (∀ (first : List Char) (rest : List (List Char)) (out : List Linked),
      parse (first :: rest) = .ok (some out) →
      ∃ base, parsePageNoBase 1 ((removeEndLineChar first).getD []) = .ok base ∧
        ∀ k (hk : k < out.length), ∃ region : List Char,
          region.all isDigitChar ∧ 1 ≤ digitsToNat region ∧
          (out.get ⟨k, hk⟩).pageNo = digitsToNat region + base) := by
  refine ⟨?_, ?_, ?_, ?_, ?_, ?_⟩
  · intro h
    subst h
    rfl
  · intro h
    unfold parsePageNoBase
    by_cases hlen : hd.length = 0
    · rw [if_pos hlen]
      have : hd = [] := List.length_eq_zero.mp hlen
      subst this
      rfl
    · rw [if_neg hlen, if_pos h]
  · intro h
    unfold parsePageNoBase
    have hlen : ¬ hd.length = 0 := by
      intro h0
      have : hd = [] := List.length_eq_zero.mp h0
      subst this
      simp at h
    rw [if_neg hlen, if_neg h]
  · intro e2 p h
    exact (matchPageNo_ok h).2.2.2.2
  · intro L t p h
    obtain ⟨s2, hs, hdig, _, hp⟩ := parseBookmark_ok_pageNo h
    exact ⟨s2, hs, hdig, hp⟩
  · intro first rest out h
    obtain ⟨first', rest', base, bml, l1, heq, hbase, htok, hbne, hgo, hl1ne, hout⟩ :=
      parse_ok_some h
    obtain ⟨rfl, rfl⟩ : first = first' ∧ rest = rest' := by
      injection heq with h1 h2
      exact ⟨h1, h2⟩
    subst hout
    refine ⟨base, hbase, ?_⟩
    intro k hk
    have hlink : linkSpec [] bml = .ok l1 := by
      rw [← addIdParentIdGo_eq_linkSpec bml [] [] dictInv_nil]
      exact hgo
    obtain ⟨hlen1, hspec1⟩ := linkSpec_ok_spec bml [] l1 hlink
    obtain ⟨hlen2, hspec2⟩ := addSerialGo_spec l1 [] (fun _ => none) (by simp)
    have hk1 : k < l1.length := by omega
    have hkb : k < bml.length := by omega
    have hpage2 : ((addSerialGo [] l1).get ⟨k, hk⟩).pageNo = (l1.get ⟨k, hk1⟩).pageNo := by
      rw [hspec2 k hk hk1]
    have hpage1 : (l1.get ⟨k, hk1⟩).pageNo = (bml.get ⟨k, hkb⟩).2.2 :=
      (hspec1 k hk1 hkb).2.2.2.1
    have hmem : bml.get ⟨k, hkb⟩ ∈ bml := List.get_mem bml k hkb
    obtain ⟨n, bm, _, hpb⟩ := tokenizeBody_mem rest base 2 bml htok _ hmem
    rcases hentry : bml.get ⟨k, hkb⟩ with ⟨L, t, p⟩
    rw [hentry] at hpb hpage1
    obtain ⟨s2, hs2, hdig, hv, hp⟩ := parseBookmark_ok_pageNo hpb
    refine ⟨bm.drop s2, hdig, hv, ?_⟩
    rw [hpage2, hpage1]
    exact hp

/-- C4 witness: header `10` gives base 10, a non-digit header fails, and the
spec scenario page `1 + base 10 = 11`. -/
theorem claim_C4_witness :
    parsePageNoBase 1 ("10".data) = .ok 10 ∧
    parsePageNoBase 1 ("1a".data) = .error (.runtimeError 1 msgPageNoNotNumeric) ∧
    (11 : Nat) = digitsToNat (("Ch1 1".data).drop 4) + 10 :=
  ⟨(claim_C4 1 10 0 [] ("10".data)).2.1 (by decide),
   (claim_C4 1 10 0 [] ("1a".data)).2.2.1 (by decide),
   (claim_C4 2 10 4 ("Ch1 1".data) []).2.2.2.1 5 11 (by rfl)⟩

/-- Claim C5: a page-number region that is all digits but parses to a value
below 1 fails with the invalid-page error (checked after digit validation and
before the offset is added), and every successful page number is at least
`1 + base`. -/
theorem claim_C5 (ln b : Nat) (l : List Char) (s : Nat) :
    (s < l.length → (l.drop s).all isDigitChar → digitsToNat (l.drop s) = 0 →
      matchPageNo ln b l s = .error (.runtimeError ln (msgInvalidPageNo 0))) ∧
    (∀ e2 p, matchPageNo ln b l s = .ok (e2, p) → 1 + b ≤ p) := by
  constructor
  · intro hs hdig hz
    unfold matchPageNo
    have hc : checkStrIndex ln l (s : Int) = .ok () := by
      unfold checkStrIndex
      rw [if_neg (by omega)]
    simp only [Bind.bind, Except.bind, hc]
    rw [if_pos hdig, if_pos (show digitsToNat (l.drop s) < 1 by omega), hz]
  · intro e2 p h
    obtain ⟨_, _, hv, _, hp⟩ := matchPageNo_ok h
    omega

/-- C5 witness: page number 0 is rejected with the invalid-page error, and a
successful page is at least `1 + base`. -/
theorem claim_C5_witness :
    matchPageNo 2 0 ("Title 0".data) 6 = .error (.runtimeError 2 (msgInvalidPageNo 0)) ∧
    1 + 0 ≤ 3 :=
  ⟨(claim_C5 2 0 ("Title 0".data) 6).1 (by decide) (by decide) (by rfl),
   (claim_C5 2 0 ("T 3".data) 2).2 3 3 (by rfl)⟩

/-- Claim C7: an empty input file parses to the absent result with no error,
a blank body line is skipped (no entry, no error), and an input of only blank
lines parses to the absent result. -/
theorem claim_C7 :
    parse [] = .ok none ∧
    (∀ (base ln : Nat) (l : List Char) (rest : List (List Char)),
      removeEndLineChar l = none ∨ removeEndLineChar l = some [] →
      tokenizeBody base ln (l :: rest) = tokenizeBody base (ln + 1) rest) ∧
    (∀ lines : List (List Char),
      (∀ l ∈ lines, removeEndLineChar l = none ∨ removeEndLineChar l = some []) →
      parse lines = .ok none) := by
  refine ⟨rfl, fun base ln l rest h => tokenizeBody_skip base ln l rest h, ?_⟩
  intro lines h
  match lines with
  | [] => rfl
  | first :: rest =>
    have h1 : (removeEndLineChar first).getD [] = [] := by
      rcases h first (by simp) with h' | h' <;> simp [h']
    have h2 : tokenizeBody 0 2 rest = .ok [] :=
      tokenizeBody_blank_all rest 0 2 (fun x hx => h x (by simp [hx]))
    have hred : parse (first :: rest) =
        (do
          let base ← parsePageNoBase 1 ((removeEndLineChar first).getD [])
          let bml ← tokenizeBody base 2 rest
          let linked ← addIdParentId bml
          Except.ok (addSerialNoToTitle linked)) := rfl
    rw [hred, h1]
    have hbase : parsePageNoBase 1 ([] : List Char) = .ok 0 := rfl
    simp only [Bind.bind, Except.bind, hbase, h2]
    rfl

/-- C7 witness: a blank line is skipped and an input of blank lines parses to
the absent result. -/
theorem claim_C7_witness :
    tokenizeBody 0 5 [("\n".data)] = tokenizeBody 0 6 [] ∧
    parse [("\n".data), ([] : List Char)] = .ok none :=
  ⟨claim_C7.2.1 0 5 ("\n".data) [] (Or.inr (by decide)),
   claim_C7.2.2 [("\n".data), []] (by decide)⟩

/-- Claim C9 (frame property): the serial-numbering pass only rewrites
titles — it preserves id, parentId, layer and pageNo of every entry, keeps
length and order, and maps absent/empty inputs to the absent result. -/
theorem addSerialNoToTitle_frame :
    ∀ (l out : List Linked), addSerialNoToTitle (some l) = some out →
      out.length = l.length ∧
      ∀ k (hk : k < out.length) (hk' : k < l.length),
        (out.get ⟨k, hk⟩).id = (l.get ⟨k, hk'⟩).id ∧
        (out.get ⟨k, hk⟩).parentId = (l.get ⟨k, hk'⟩).parentId ∧
        (out.get ⟨k, hk⟩).layer = (l.get ⟨k, hk'⟩).layer ∧
        (out.get ⟨k, hk⟩).pageNo = (l.get ⟨k, hk'⟩).pageNo := by
  intro l out h
  match l with
  | [] => simp [addSerialNoToTitle] at h
  | e :: rest =>
    have hred : addSerialNoToTitle (some (e :: rest)) =
        some (addSerialGo [] (e :: rest)) := rfl
    rw [hred, Option.some.injEq] at h
    subst h
    obtain ⟨hlen, hall⟩ := addSerialGo_spec (e :: rest) [] (fun _ => none) (by simp)
    refine ⟨hlen, ?_⟩
    intro k hk hk'
    rw [hall k hk hk']
    exact ⟨rfl, rfl, rfl, rfl⟩

theorem addSerialNoToTitle_titles :
    ∀ (l out : List Linked), addSerialNoToTitle (some l) = some out →
      out.length = l.length ∧
      ∀ k (hk : k < out.length) (hk' : k < l.length),
        (out.get ⟨k, hk⟩).title =
          (specSerialStr (specCounters (fun _ => none)
              ((l.map (fun e => e.layer)).take (k + 1)))
            ((l.get ⟨k, hk'⟩).layer)).data ++ ' ' :: (l.get ⟨k, hk'⟩).title := by
  intro l out h
  match l with
  | [] => simp [addSerialNoToTitle] at h
  | e :: rest =>
    have hred : addSerialNoToTitle (some (e :: rest)) =
        some (addSerialGo [] (e :: rest)) := rfl
    rw [hred, Option.some.injEq] at h
    subst h
    obtain ⟨hlen, hall⟩ := addSerialGo_spec (e :: rest) [] (fun _ => none) (by simp)
    refine ⟨hlen, ?_⟩
    intro k hk hk'
    rw [hall k hk hk']

theorem claim_C9 :
    addSerialNoToTitle none = none ∧
    addSerialNoToTitle (some ([] : List Linked)) = none ∧
    (∀ l : List Linked, l ≠ [] → ∃ out, addSerialNoToTitle (some l) = some out) ∧
    (∀ (l out : List Linked), addSerialNoToTitle (some l) = some out →
      out.length = l.length ∧
      ∀ k (hk : k < out.length) (hk' : k < l.length),
        (out.get ⟨k, hk⟩).id = (l.get ⟨k, hk'⟩).id ∧
        (out.get ⟨k, hk⟩).parentId = (l.get ⟨k, hk'⟩).parentId ∧
        (out.get ⟨k, hk⟩).layer = (l.get ⟨k, hk'⟩).layer ∧
        (out.get ⟨k, hk⟩).pageNo = (l.get ⟨k, hk'⟩).pageNo) := by
  refine ⟨rfl, rfl, ?_, addSerialNoToTitle_frame⟩
  intro l hne
  match l with
  | e :: rest => exact ⟨addSerialGo [] (e :: rest), rfl⟩

/-- C9 witness: the pass on a one-entry list keeps every non-title field. -/
theorem claim_C9_witness :
    (∃ out, addSerialNoToTitle (some [(⟨5, some 2, 0, "T".data, 9⟩ : Linked)]) = some out) ∧
    ([⟨5, some 2, 0, "1 T".data, 9⟩] : List Linked).length =
      ([⟨5, some 2, 0, "T".data, 9⟩] : List Linked).length :=
  ⟨claim_C9.2.2.1 _ (by decide),
   (claim_C9.2.2.2 [⟨5, some 2, 0, "T".data, 9⟩] [⟨5, some 2, 0, "1 T".data, 9⟩]
     (by rfl)).1⟩

/-- Claim C2: the serial-numbering pass rewrites each title to the dotted
counter string (per the spec's counter machine: missing counters among
levels 0..L initialized to 0, the level-L counter incremented, lower levels
carried over, higher levels dropped) followed by a space and the original
title; and the level sequence `0,1,1,0` yields prefixes `1`, `1.1`, `1.2`,
`2`. -/
theorem claim_C2 :
    (∀ (l out : List Linked), addSerialNoToTitle (some l) = some out →
      out.length = l.length ∧
      ∀ k (hk : k < out.length) (hk' : k < l.length),
        (out.get ⟨k, hk⟩).title =
          (specSerialStr (specCounters (fun _ => none)
              ((l.map (fun e => e.layer)).take (k + 1)))
            ((l.get ⟨k, hk'⟩).layer)).data ++ ' ' :: (l.get ⟨k, hk'⟩).title) ∧
    addSerialNoToTitle (some
      [⟨1, none, 0, "A".data, 1⟩, ⟨2, some 1, 1, "B".data, 2⟩,
       ⟨3, some 1, 1, "C".data, 3⟩, ⟨4, none, 0, "D".data, 4⟩]) =
    some
      [⟨1, none, 0, "1 A".data, 1⟩, ⟨2, some 1, 1, "1.1 B".data, 2⟩,
       ⟨3, some 1, 1, "1.2 C".data, 3⟩, ⟨4, none, 0, "2 D".data, 4⟩] := by
  exact ⟨addSerialNoToTitle_titles, rfl⟩

/-- C2 witness: the refinement applied to the four-entry example. -/
theorem claim_C2_witness :
    ([⟨1, none, 0, "1 A".data, 1⟩, ⟨2, some 1, 1, "1.1 B".data, 2⟩,
      ⟨3, some 1, 1, "1.2 C".data, 3⟩, ⟨4, none, 0, "2 D".data, 4⟩] : List Linked).length =
    ([⟨1, none, 0, "A".data, 1⟩, ⟨2, some 1, 1, "B".data, 2⟩,
      ⟨3, some 1, 1, "C".data, 3⟩, ⟨4, none, 0, "D".data, 4⟩] : List Linked).length :=
  (claim_C2.1 _ _ claim_C2.2).1

/-- C8 counterexample: the numbering pass is not idempotent — re-running it
on its own output prefixes the serial number a second time. -/
theorem claim_C8_counterexample :
    addSerialNoToTitle (addSerialNoToTitle
        (some [(⟨1, none, 0, "A".data, 5⟩ : Linked)])) ≠
      addSerialNoToTitle (some [(⟨1, none, 0, "A".data, 5⟩ : Linked)]) := by
  decide

/-- Claim C8 (amended): re-running the numbering pass on its own output, with
a fresh counter state, prepends the identical serial prefix again (the prefix
depends only on the unchanged level sequence); the pass is deterministic but
not idempotent. -/
theorem claim_C8_amended :
    ∀ (l out out2 : List Linked),
      addSerialNoToTitle (some l) = some out →
      addSerialNoToTitle (some out) = some out2 →
      out2.length = out.length ∧
      ∀ k (hk2 : k < out2.length) (hk : k < out.length) (hk' : k < l.length),
        (out.get ⟨k, hk⟩).title =
          (specSerialStr (specCounters (fun _ => none)
              ((l.map (fun e => e.layer)).take (k + 1)))
            ((l.get ⟨k, hk'⟩).layer)).data ++ ' ' :: (l.get ⟨k, hk'⟩).title ∧
        (out2.get ⟨k, hk2⟩).title =
          (specSerialStr (specCounters (fun _ => none)
              ((l.map (fun e => e.layer)).take (k + 1)))
            ((l.get ⟨k, hk'⟩).layer)).data ++ ' ' :: (out.get ⟨k, hk⟩).title := by
  intro l out out2 h1 h2
  obtain ⟨hlen1, htit1⟩ := addSerialNoToTitle_titles l out h1
  obtain ⟨hlen2, htit2⟩ := addSerialNoToTitle_titles out out2 h2
  obtain ⟨hlenf, hframe⟩ := addSerialNoToTitle_frame l out h1
  have hmap : out.map (fun e => e.layer) = l.map (fun e => e.layer) := by
    apply List.ext_get (by simp [hlen1])
    intro n hn1 hn2
    have hn : n < out.length := by simpa using hn1
    have hn' : n < l.length := by simpa using hn2
    have h3 := (hframe n hn hn').2.2.1
    simp only [List.get_eq_getElem] at h3
    simp only [List.get_eq_getElem, List.getElem_map]
    exact h3
  refine ⟨by omega, ?_⟩
  intro k hk2 hk hk'
  refine ⟨htit1 k hk hk', ?_⟩
  have hlayer : (out.get ⟨k, hk⟩).layer = (l.get ⟨k, hk'⟩).layer :=
    (hframe k hk hk').2.2.1
  have := htit2 k hk2 hk
  rw [hmap, hlayer] at this
  exact this

/-- C8 witness: the amended statement at a concrete one-entry list, where the
second pass yields the doubly prefixed title. -/
theorem claim_C8_witness :
    ([⟨1, none, 0, "1 1 A".data, 5⟩] : List Linked).length =
      ([⟨1, none, 0, "1 A".data, 5⟩] : List Linked).length :=
  (claim_C8_amended [⟨1, none, 0, "A".data, 5⟩] [⟨1, none, 0, "1 A".data, 5⟩]
    [⟨1, none, 0, "1 1 A".data, 5⟩] (by rfl) (by rfl)).1

/-- C6 counterexample: a hierarchy violation (level 1 with no level-0
predecessor) makes `parse` fail with the bare key-lookup error, which carries
no line number. -/
theorem claim_C6_counterexample :
    parse [([] : List Char), "    A 1".data] = .error (.keyError 0) ∧
    ∀ n m, (PErr.keyError 0) ≠ PErr.runtimeError n m :=
  ⟨by rfl, fun n m h => PErr.noConfusion h⟩

/-- Claim C6 (amended): every tokenizing or header failure carries a 1-based
line number within the input (the `RuntimeError` raised via `_raise_message`),
while a linkage failure surfaces as a bare `KeyError` naming only the missing
level — it carries no line number. -/
theorem claim_C6_amended :
    ∀ (lines : List (List Char)) (e : PErr), parse lines = .error e →
      (∃ n m, e = .runtimeError n m ∧ 1 ≤ n ∧ n ≤ lines.length) ∨
      (∃ k, e = .keyError k) := by
  intro lines e h
  match lines with
  | [] => simp [parse] at h
  | first :: rest =>
    have hred : parse (first :: rest) =
        (do
          let base ← parsePageNoBase 1 ((removeEndLineChar first).getD [])
          let bml ← tokenizeBody base 2 rest
          let linked ← addIdParentId bml
          Except.ok (addSerialNoToTitle linked)) := rfl
    rw [hred] at h
    simp only [Bind.bind, Except.bind] at h
    split at h
    · rename_i e1 hbase
      simp only [Except.error.injEq] at h
      subst h
      left
      refine ⟨1, msgPageNoNotNumeric, parsePageNoBase_err hbase, le_refl 1, ?_⟩
      simp only [List.length_cons]
      omega
    · split at h
      · rename_i e1 htok
        simp only [Except.error.injEq] at h
        subst h
        obtain ⟨n, m, he, h1, h2⟩ := tokenizeBody_err rest _ 2 e1 htok
        left
        refine ⟨n, m, he, by omega, ?_⟩
        simp only [List.length_cons]
        omega
      · split at h
        · rename_i e1 hlink
          simp only [Except.error.injEq] at h
          subst h
          right
          exact addIdParentId_err hlink
        · simp at h

/-- C6 witness: the amended statement at a concrete tokenizing failure. -/
theorem claim_C6_witness :
    (∃ n m, (PErr.runtimeError 2 msgPageNoNotNumeric) = PErr.runtimeError n m ∧
      1 ≤ n ∧ n ≤ 2) ∨
    (∃ k, (PErr.runtimeError 2 msgPageNoNotNumeric) = PErr.keyError k) :=
  claim_C6_amended [([] : List Char), "Title abc".data]
    (PErr.runtimeError 2 msgPageNoNotNumeric) (by rfl)

/-- The last character of a list is in every suffix that is still nonempty. -/
theorem getLast_mem_drop {l : List Char} {c : Char} {s : Nat} (hs : s < l.length)
    (hlast : l.getLast? = some c) : c ∈ l.drop s := by
  have hdropne : l.drop s ≠ [] := by
    intro h
    have h2 : (l.drop s).length = 0 := by rw [h]; rfl
    rw [List.length_drop] at h2
    omega
  have hlast2 : (l.drop s).getLast? = some c := by
    have happ : (l.take s ++ l.drop s).getLast? = (l.drop s).getLast? :=
      List.getLast?_append_of_ne_nil _ hdropne
    rw [List.take_append_drop] at happ
    rw [← happ]
    exact hlast
  obtain ⟨h3, h4⟩ := List.mem_getLast?_eq_getLast
    (show c ∈ (l.drop s).getLast? by rw [Option.mem_def]; exact hlast2)
  rw [h4]
  exact List.getLast_mem h3

/-- C10 counterexample: a CRLF body line with no space separator fails with
the generic format error, not the page-not-numeric error. -/
theorem claim_C10_counterexample :
    parse [([] : List Char), "abc\r\n".data] = .error (.runtimeError 2 msgFormatError) ∧
    msgFormatError ≠ msgPageNoNotNumeric :=
  ⟨by rfl, by decide⟩

/-- Claim C10 (amended): line-end stripping removes exactly one trailing
newline (so a CRLF line keeps its `\r`); a CRLF body line that reaches the
page-number matcher fails with the not-numeric error because the retained
`\r` sits in the digit region; and no body line ending in `\r` ever
tokenizes successfully — only LF-terminated input is accepted (a CRLF line
without a space separator fails earlier with the generic format error). -/
theorem claim_C10_amended :
    (∀ l : List Char, removeEndLineChar (l ++ ['\n']) = some l) ∧
    (∀ (l : List Char) (c : Char), l.getLast? = some c → c ≠ '\n' →
      removeEndLineChar l = some l) ∧
    (∀ (ln b s : Nat) (l : List Char), s < l.length → l.getLast? = some '\r' →
      matchPageNo ln b l s = .error (.runtimeError ln msgPageNoNotNumeric)) ∧
    (∀ (ln b : Nat) (l : List Char), l.getLast? = some '\r' →
      ∀ r : RawEntry, parseBookmark ln b l ≠ .ok r) := by
  refine ⟨?_, ?_, ?_, ?_⟩
  · intro l
    unfold removeEndLineChar
    rw [if_neg (by simp)]
    have hlast : (l ++ ['\n']).getLast? = some '\n' := by
      rw [List.getLast?_append_of_ne_nil _ (by simp)]
      rfl
    rw [if_pos hlast]
    have hlen : (l ++ ['\n']).length - 1 = l.length := by simp
    rw [hlen, List.take_left]
  · intro l c hlast hne
    have hl : l ≠ [] := by
      intro h
      subst h
      simp at hlast
    unfold removeEndLineChar
    rw [if_neg hl, if_neg (by rw [hlast]; simp [hne])]
  · intro ln b s l hs hlast
    have hmem : '\r' ∈ l.drop s := getLast_mem_drop hs hlast
    have hall : ¬ ((l.drop s).all isDigitChar = true) := by
      intro hA
      have := List.all_eq_true.mp hA _ hmem
      simp [isDigitChar] at this
    unfold matchPageNo
    have hc : checkStrIndex ln l (s : Int) = .ok () := by
      unfold checkStrIndex
      rw [if_neg (by omega)]
    simp only [Bind.bind, Except.bind, hc]
    rw [if_neg hall]
  · intro ln b l hlast r hok
    obtain ⟨L, t, p⟩ := r
    obtain ⟨s2, hs2, hdig, _, _⟩ := parseBookmark_ok_pageNo hok
    have hmem : '\r' ∈ l.drop s2 := getLast_mem_drop hs2 hlast
    have := List.all_eq_true.mp hdig _ hmem
    simp [isDigitChar] at this

/-- C10 witness: single-newline stripping and the CRLF page-number failure at
concrete inputs. -/
theorem claim_C10_witness :
    removeEndLineChar ("Title 3".data ++ ['\n']) = some ("Title 3".data) ∧
    matchPageNo 2 0 ("Title 3\r".data) 6 =
      .error (.runtimeError 2 msgPageNoNotNumeric) :=
  ⟨claim_C10_amended.1 ("Title 3".data),
   claim_C10_amended.2.2.1 2 0 6 ("Title 3\r".data) (by decide) (by decide)⟩

/-- Claim C1: in `parse`'s output, ids are `1, 2, ...` in input order; a
level-0 entry has no parent; a level-`(L+1)` entry's parentId is the id
(position + 1) of the nearest preceding level-`L` entry; and an entry at a
positive level with no preceding entry one level shallower makes the whole
linkage pass fail (the `KeyError` modelling `HierarchyError`), producing no
bookmark list. -/
theorem claim_C1 :
    (∀ (lines : List (List Char)) (out : List Linked),
      parse lines = .ok (some out) →
      (∀ k (hk : k < out.length), (out.get ⟨k, hk⟩).id = k + 1) ∧
      (∀ k (hk : k < out.length), (out.get ⟨k, hk⟩).layer = 0 →
        (out.get ⟨k, hk⟩).parentId = none) ∧
      (∀ k (hk : k < out.length) (L : Nat), (out.get ⟨k, hk⟩).layer = L + 1 →
        ∃ j, ∃ hj : j < out.length, j < k ∧ (out.get ⟨j, hj⟩).layer = L ∧
          (∀ m (hm : m < out.length), j < m → m < k →
            (out.get ⟨m, hm⟩).layer ≠ L) ∧
          (out.get ⟨k, hk⟩).parentId = some (j + 1))) ∧
    (∀ (bml : List RawEntry) (k : Nat) (hk : k < bml.length),
      0 < (bml.get ⟨k, hk⟩).1 →
      (∀ j (hj : j < bml.length), j < k →
        (bml.get ⟨j, hj⟩).1 ≠ (bml.get ⟨k, hk⟩).1 - 1) →
      ∃ e, addIdParentId bml = .error e) := by
  constructor
  · intro lines out h
    obtain ⟨first, rest, base, bml, l1, heq, hbase, htok, hbne, hgo, hl1ne, hout⟩ :=
      parse_ok_some h
    subst hout
    have hlink : linkSpec [] bml = .ok l1 := by
      rw [← addIdParentIdGo_eq_linkSpec bml [] [] dictInv_nil]
      exact hgo
    obtain ⟨hlen1, hspec1⟩ := linkSpec_ok_spec bml [] l1 hlink
    obtain ⟨hlen2, hspec2⟩ := addSerialGo_spec l1 [] (fun _ => none) (by simp)
    have hlayerEq : ∀ m (hm : m < (addSerialGo [] l1).length) (hm1 : m < l1.length)
        (hmb : m < bml.length),
        ((addSerialGo [] l1).get ⟨m, hm⟩).layer = (bml.get ⟨m, hmb⟩).1 := by
      intro m hm hm1 hmb
      rw [hspec2 m hm hm1]
      exact (hspec1 m hm1 hmb).2.1
    have hparEq : ∀ m (hm : m < (addSerialGo [] l1).length) (hm1 : m < l1.length),
        ((addSerialGo [] l1).get ⟨m, hm⟩).parentId = (l1.get ⟨m, hm1⟩).parentId := by
      intro m hm hm1
      rw [hspec2 m hm hm1]
    refine ⟨?_, ?_, ?_⟩
    · intro k hk
      have hk1 : k < l1.length := by omega
      have hkb : k < bml.length := by omega
      have hid2 : ((addSerialGo [] l1).get ⟨k, hk⟩).id = (l1.get ⟨k, hk1⟩).id := by
        rw [hspec2 k hk hk1]
      rw [hid2, (hspec1 k hk1 hkb).1]
      simp
    · intro k hk h0
      have hk1 : k < l1.length := by omega
      have hkb : k < bml.length := by omega
      rw [hlayerEq k hk hk1 hkb] at h0
      rw [hparEq k hk hk1]
      exact (hspec1 k hk1 hkb).2.2.2.2.1 h0
    · intro k hk L hL
      have hk1 : k < l1.length := by omega
      have hkb : k < bml.length := by omega
      rw [hlayerEq k hk hk1 hkb] at hL
      obtain ⟨j, hjsome, hpid⟩ := (hspec1 k hk1 hkb).2.2.2.2.2 (by omega)
      rw [List.nil_append] at hjsome
      obtain ⟨hjlt, hjget, hafter⟩ := lastIdxOf_some_spec _ _ _ hjsome
      have hjk : j < k := by
        have h2 := hjlt
        simp [List.length_take] at h2
        omega
      have hjb : j < bml.length := by omega
      have hj1 : j < l1.length := by omega
      have hjout : j < (addSerialGo [] l1).length := by omega
      have hjval : (bml.get ⟨j, hjb⟩).1 = (bml.get ⟨k, hkb⟩).1 - 1 := by
        have h2 := hjget
        simp only [List.get_eq_getElem, List.getElem_take, List.getElem_map] at h2
        simpa [List.get_eq_getElem] using h2
      refine ⟨j, hjout, hjk, ?_, ?_, ?_⟩
      · rw [hlayerEq j hjout hj1 hjb]
        omega
      · intro m hm hjm hmk
        have hm1 : m < l1.length := by omega
        have hmb : m < bml.length := by omega
        rw [hlayerEq m hm hm1 hmb]
        have hmlt : m < ((bml.map (fun e => e.1)).take k).length := by
          simp [List.length_take]
          omega
        have h3 := hafter m hmlt hjm
        simp only [List.get_eq_getElem, List.getElem_take, List.getElem_map] at h3
        simp only [List.get_eq_getElem] at hL ⊢
        omega
      · rw [hparEq k hk hk1, hpid]
  · intro bml k hk hpos hpre
    have hbne : bml ≠ [] := by
      intro h2
      subst h2
      simp at hk
    have hnone : lastIdxOf ((bml.get ⟨k, hk⟩).1 - 1)
        ([] ++ (bml.map (fun e => e.1)).take k) = none := by
      rw [List.nil_append]
      apply (lastIdxOf_none_iff _ _).mpr
      intro m hm
      have hmk : m < k := by
        have h2 := hm
        simp [List.length_take] at h2
        omega
      have hmb : m < bml.length := by omega
      have h4 := hpre m hmb hmk
      simp only [List.get_eq_getElem, List.getElem_take, List.getElem_map]
      simp only [List.get_eq_getElem] at h4
      exact h4
    obtain ⟨e, he⟩ := linkSpec_fail bml [] k hk hpos hnone
    refine ⟨e, ?_⟩
    have hemp : bml.isEmpty = false := by
      cases bml with
      | nil => exact absurd rfl hbne
      | cons a as => rfl
    unfold addIdParentId
    rw [if_neg (by simp [hemp])]
    have hgoerr : addIdParentIdGo 1 [] bml = .error e :=
      (addIdParentIdGo_eq_linkSpec bml [] [] dictInv_nil).trans he
    simp only [Bind.bind, Except.bind, hgoerr]

/-- C1 witness: the spec scenario (ids 1..3, the level-1 entry linked to
entry 1) and a concrete hierarchy violation. -/
theorem claim_C1_witness :
    (∀ k (hk : k < ([⟨1, none, 0, "1 Intro".data, 5⟩,
        ⟨2, some 1, 1, "1.1 Background".data, 6⟩,
        ⟨3, none, 0, "2 Methods".data, 10⟩] : List Linked).length),
      (([⟨1, none, 0, "1 Intro".data, 5⟩,
        ⟨2, some 1, 1, "1.1 Background".data, 6⟩,
        ⟨3, none, 0, "2 Methods".data, 10⟩] : List Linked).get ⟨k, hk⟩).id = k + 1) ∧
    (∃ e, addIdParentId [((1 : Nat), "B".data, (6 : Nat))] = .error e) :=
  ⟨(claim_C1.1 [[], "Intro 5".data, "    Background 6".data, "Methods 10".data]
      [⟨1, none, 0, "1 Intro".data, 5⟩, ⟨2, some 1, 1, "1.1 Background".data, 6⟩,
       ⟨3, none, 0, "2 Methods".data, 10⟩] (by rfl)).1,
   claim_C1.2 [((1 : Nat), "B".data, (6 : Nat))] 0 (by decide) (by decide)
     (fun j hj hj0 => absurd hj0 (by omega))⟩

end AddPDFBookmark
